import Mathlib

/-!
Shallow embedding of the conversion orchestrator (`Converter`) of the mozc
repository, file `src/converter/converter.cc`, together with proofs about
its key operations.

Conventions of the embedding:
* UTF-8 strings are modelled as lists of codepoints (`List Char`), so that
  `Util::CharsLen` is `List.length` and `Util::Utf8SubString(s, pos, len)`
  is `(s.drop pos).take len`.
* The `Segments` / `Segment` / `Candidate` containers live in
  `converter/segments.h`, which is not part of this snapshot; they are
  modelled from the spec (section "DATA MODEL").  All functions of
  `converter.cc` itself are translated directly from the source.
* Machine integers are modelled as `Nat` / `Int`; the only place where a
  width matters is the `uint8_t` bound 255 in `ResizeSegment`, which the
  source checks explicitly before narrowing.
* Collaborators (immutable converter, predictor, rewriter, suppression
  dictionary) are parameters: arbitrary Lean functions of the right shape.
-/

/-- Modelled from the spec: `segment_type ∈ {FREE, FIXED_BOUNDARY, FIXED_VALUE,
SUBMITTED, HISTORY}` (spec section 3, `Segment`). -/
inductive SegmentType where
  | FREE
  | FIXED_BOUNDARY
  | FIXED_VALUE
  | SUBMITTED
  | HISTORY
deriving DecidableEq, Inhabited

/-- Modelled from the spec: a candidate holds `key`, `value`, 16-bit POS ids
`lid`/`rid`, integer scores `cost`, `wcost`, `structure_cost`, an attribute
bitset and `consumed_key_size` (spec section 3, `Candidate`). -/
structure Candidate where
  key : List Char
  value : List Char
  lid : Nat
  rid : Nat
  cost : Int
  wcost : Int
  structure_cost : Int
  attributes : Nat
  consumed_key_size : Nat
deriving DecidableEq, Inhabited

/-- Modelled from the spec: the attribute bitset includes at least
`PARTIALLY_KEY_CONSUMED` and `RERANKED`; the concrete bit positions are not
specified, so two distinct bits are chosen. -/
def Candidate.PARTIALLY_KEY_CONSUMED : Nat := 1

/-- Modelled from the spec: the `RERANKED` attribute bit (distinct from
`PARTIALLY_KEY_CONSUMED`). -/
def Candidate.RERANKED : Nat := 2

/-- Modelled from the spec: a segment holds its reading `key`, a
`segment_type`, the ranked `candidates` and the transliteration
`meta_candidates` (spec section 3, `Segment`). -/
structure Segment where
  key : List Char
  segment_type : SegmentType
  candidates : List Candidate
  meta_candidates : List Candidate
deriving DecidableEq, Inhabited

/-- Modelled from the spec: a segment belongs to the committed history
region when its type is `HISTORY` or `SUBMITTED` (spec: committing a
segment as `SUBMITTED` "shifts the first conversion segment into the
history prefix"). -/
def Segment.isHistorySegment (s : Segment) : Bool :=
  s.segment_type = SegmentType.HISTORY || s.segment_type = SegmentType.SUBMITTED

/-- Modelled from the spec: `Segments` is an ordered sequence of `Segment`
divided into a history region followed by a conversion region, together
with `max_history_segments_size`, a `resized` flag and revert entries
(represented here only by their count, which is all the orchestrator
inspects) (spec section 3, `Segments`). -/
structure Segments where
  segments : List Segment
  max_history_segments_size : Nat
  resized : Bool
  revert_entries_size : Nat
deriving DecidableEq, Inhabited

/-- Modelled from the spec: the history region is the maximal run of
history-typed segments at the front of the buffer. -/
def Segments.history_segments_size (s : Segments) : Nat :=
  (s.segments.takeWhile Segment.isHistorySegment).length

/-- Modelled from the spec: the conversion region is the part of the buffer
after the history run. -/
def Segments.conversion_segments (s : Segments) : List Segment :=
  s.segments.dropWhile Segment.isHistorySegment

/-- Modelled from the spec: number of segments in the conversion region. -/
def Segments.conversion_segments_size (s : Segments) : Nat :=
  s.conversion_segments.length

/-- Modelled from the spec: `conversion_segment(i)` indexes relative to the
conversion region. -/
def Segments.conversion_segment (s : Segments) (i : Nat) : Segment :=
  s.conversion_segments.getD i default

/-- Modelled from the spec: `Segments::clear_conversion_segments` removes
the conversion region and keeps the history region. -/
def Segments.clear_conversion_segments (s : Segments) : Segments :=
  { s with segments := s.segments.takeWhile Segment.isHistorySegment }

/-- Modelled from the spec: `Segments::Clear` clears all segments and the
revert entries ("Reset: clear all segments"). -/
def Segments.Clear (s : Segments) : Segments :=
  { s with segments := [], revert_entries_size := 0 }

/-- Key of the first conversion segment, if any (helper used to state key
stability). -/
def Segments.firstConversionKey (s : Segments) : Option (List Char) :=
  s.conversion_segments.head?.map Segment.key

/-- Request types, from `ConversionRequest::RequestType`
(`request/conversion_request.h`). -/
inductive RequestType where
  | CONVERSION
  | REVERSE_CONVERSION
  | PREDICTION
  | SUGGESTION
  | PARTIAL_PREDICTION
  | PARTIAL_SUGGESTION
deriving DecidableEq, Inhabited

/-- The slice of `ConversionRequest` (`request/conversion_request.h`) that
`converter.cc` consumes: the request type, the conversion key, the composer
cursor and composition length, and the protocol-request fields
`candidates_size_limit`, `zero_query_suggestion` and `mixed_conversion`. -/
structure ConversionRequest where
  request_type : RequestType
  key : List Char
  cursor : Nat
  composition_length : Nat
  candidates_size_limit : Option Int
  zero_query_suggestion : Bool
  mixed_conversion : Bool
deriving DecidableEq, Inhabited

/-- `GetSegmentIndex` (converter.cc): translate a conversion-relative index
to an absolute one; `kErrorIndex` (overflow past the buffer) is `none`. -/
def GetSegmentIndex (segments : Segments) (segment_index : Nat) : Option Nat :=
  let result := segments.history_segments_size + segment_index
  if result ≥ segments.segments.length then none else some result

/-- `SetKey` (converter.cc): cap `max_history_segments_size` at 4, clear the
conversion region and append one `FREE` segment carrying `key`. -/
def SetKey (segments : Segments) (key : List Char) : Segments :=
  let s := { segments with max_history_segments_size := 4 }
  let s := s.clear_conversion_segments
  { s with segments := s.segments ++
      [{ key := key, segment_type := SegmentType.FREE,
         candidates := [], meta_candidates := [] }] }

/-- `ShouldSetKeyForPrediction` (converter.cc): reset exactly when the
conversion region is empty or its first key differs from the input key. -/
def ShouldSetKeyForPrediction (key : List Char) (segments : Segments) : Bool :=
  decide (segments.conversion_segments_size = 0 ∨
          (segments.conversion_segment 0).key ≠ key)

/-- `IsValidSegments` (converter.cc): every segment has a candidate, or, on
mobile (`zero_query_suggestion ∧ mixed_conversion`), a meta candidate. -/
def IsValidSegments (request : ConversionRequest) (segments : Segments) : Bool :=
  let is_mobile := request.zero_query_suggestion && request.mixed_conversion
  segments.segments.all fun segment =>
    segment.candidates.length != 0 ||
    (is_mobile && segment.meta_candidates.length != 0)

/-- `ValidateConversionRequestForPrediction` (converter.cc): the guard of
`StartPrediction`.  For the partial variants the source tests
`cursor != 0 || cursor != GetLength()`.  (`REVERSE_CONVERSION` falls into
the source's `ABSL_UNREACHABLE` default; it is rendered as `false`.) -/
def ValidateConversionRequestForPrediction (request : ConversionRequest) : Bool :=
  match request.request_type with
  | RequestType.CONVERSION => false
  | RequestType.PREDICTION => true
  | RequestType.SUGGESTION => true
  | RequestType.PARTIAL_PREDICTION =>
      decide (request.cursor ≠ 0) || decide (request.cursor ≠ request.composition_length)
  | RequestType.PARTIAL_SUGGESTION =>
      decide (request.cursor ≠ 0) || decide (request.cursor ≠ request.composition_length)
  | RequestType.REVERSE_CONVERSION => false

/-- The predicate the spec states for partial prediction/suggestion: the
cursor is strictly inside the composition (`0 < cursor < length`). -/
def specCursorStrictlyInside (request : ConversionRequest) : Bool :=
  decide (0 < request.cursor ∧ request.cursor < request.composition_length)

/-- `Converter::MaybeSetConsumedKeySizeToCandidate` (converter.cc): if
`PARTIALLY_KEY_CONSUMED` is not yet set, set it and record
`consumed_key_size`. -/
def MaybeSetConsumedKeySizeToCandidate (consumed_key_size : Nat)
    (candidate : Candidate) : Candidate :=
  if candidate.attributes &&& Candidate.PARTIALLY_KEY_CONSUMED ≠ 0 then
    candidate
  else
    { candidate with
        attributes := candidate.attributes ||| Candidate.PARTIALLY_KEY_CONSUMED,
        consumed_key_size := consumed_key_size }

/-- `Converter::MaybeSetConsumedKeySizeToSegment` (converter.cc): apply the
candidate update to every candidate and meta candidate of the segment. -/
def MaybeSetConsumedKeySizeToSegment (consumed_key_size : Nat)
    (segment : Segment) : Segment :=
  { segment with
      candidates :=
        segment.candidates.map (MaybeSetConsumedKeySizeToCandidate consumed_key_size),
      meta_candidates :=
        segment.meta_candidates.map (MaybeSetConsumedKeySizeToCandidate consumed_key_size) }

/-- Helper for `mutable_conversion_segment(0)` updates: rewrite the first
segment of the conversion region in place (callers guarantee that the
conversion region is non-empty; an empty region is left unchanged). -/
def Segments.modifyFirstConversionSegment (f : Segment → Segment)
    (s : Segments) : Segments :=
  { s with segments :=
      s.segments.takeWhile Segment.isHistorySegment ++
      (match s.segments.dropWhile Segment.isHistorySegment with
       | [] => []
       | y :: rest => f y :: rest) }

/-- Modelled from the spec: `Segment::move_candidate(c, 0)` moves the
selected candidate to index 0; a negative index selects the meta candidate
`-c - 1`, which is inserted (as a copy) at index 0. -/
def moveCandidateToZero (segment : Segment) (candidate_index : Int) : List Candidate :=
  if candidate_index < 0 then
    segment.meta_candidates.getD (-candidate_index - 1).toNat default ::
      segment.candidates
  else
    segment.candidates.getD candidate_index.toNat default ::
      segment.candidates.eraseIdx candidate_index.toNat

/-- Mark the `RERANKED` attribute on the candidate now at index 0. -/
def markRerankedAtZero : List Candidate → List Candidate
  | [] => []
  | c :: rest => { c with attributes := c.attributes ||| Candidate.RERANKED } :: rest

/-- `Converter::CommitSegmentValueInternal` (converter.cc).  `num_t13n`
stands for `transliteration::NUM_T13N_TYPES`, whose value lives outside the
snapshot; it is kept as a parameter.  Returns `none` where the source
returns `false` (the buffer is then untouched). -/
def CommitSegmentValueInternal (num_t13n : Nat) (segments : Segments)
    (segment_index : Nat) (candidate_index : Int)
    (segment_type : SegmentType) : Option Segments :=
  match GetSegmentIndex segments segment_index with
  | none => none
  | some idx =>
    let segment := segments.segments.getD idx default
    let values_size : Int := segment.candidates.length
    if candidate_index < -(num_t13n : Int) ∨ candidate_index ≥ values_size then
      none
    else
      let moved := moveCandidateToZero segment candidate_index
      let moved := if candidate_index ≠ 0 then markRerankedAtZero moved else moved
      some { segments with
               segments := segments.segments.set idx
                 { segment with segment_type := segment_type, candidates := moved } }

/-- `Converter::CommitSegmentValue` (converter.cc): the public commit,
fixing the segment as `FIXED_VALUE`. -/
def CommitSegmentValue (num_t13n : Nat) (segments : Segments)
    (segment_index : Nat) (candidate_index : Int) : Option Segments :=
  CommitSegmentValueInternal num_t13n segments segment_index candidate_index
    SegmentType.FIXED_VALUE

/-- The key-collection loop of `Converter::ResizeSegments` (converter.cc):
starting at the given segment, concatenate keys until the accumulated
codepoint count reaches `total`; also count the consumed segments. -/
def collectKey : Nat → List Segment → List Char × Nat
  | _, [] => ([], 0)
  | total, seg :: rest =>
    if total ≤ seg.key.length then (seg.key, 1)
    else
      let r := collectKey (total - seg.key.length) rest
      (seg.key ++ r.1, r.2 + 1)

/-- The slicing loop of `Converter::ResizeSegments` (converter.cc): for
each non-zero size with codepoints still available, cut the next `size`
codepoints (`Util::Utf8SubString`) and advance `consumed`; returns the
final `consumed` and the new keys. -/
def sliceKeys (key : List Char) (key_len : Nat) : List Nat → Nat → Nat × List (List Char)
  | [], consumed => (consumed, [])
  | new_size :: rest, consumed =>
    if new_size ≠ 0 ∧ consumed < key_len then
      let r := sliceKeys key key_len rest (consumed + new_size)
      (r.1, (key.drop consumed).take new_size :: r.2)
    else
      sliceKeys key key_len rest consumed

/-- A fresh segment as produced by `Segments::insert_segment` followed by
`set_segment_type` / `set_key`. -/
def mkInsertedSegment (stype : SegmentType) (key : List Char) : Segment :=
  { key := key, segment_type := stype, candidates := [], meta_candidates := [] }

/-- `Converter::ResizeSegments` (converter.cc) up to and including the
boundary repair (steps: validate, collect the source key, slice, erase the
consumed segments, insert the `FIXED_BOUNDARY` segments, handle the `FREE`
remainder, set `resized`).  The final `ApplyConversion` call only refills
candidates through the collaborators and is applied on top by
`ResizeSegments`. -/
def ResizeSegmentsSpliced (segments : Segments) (request_type : RequestType)
    (start_segment_index : Nat) (new_size_array : List Nat) : Option Segments :=
  if request_type ≠ RequestType.CONVERSION then none
  else
    match GetSegmentIndex segments start_segment_index with
    | none => none
    | some start =>
      let total_size := new_size_array.sum
      if total_size = 0 then none
      else
        let collected := collectKey total_size (segments.segments.drop start)
        let key := collected.1
        let key_len := key.length
        let consumed_segments_size := collected.2
        if key_len = 0 ∨ key_len < total_size then none
        else
          let sliced := sliceKeys key key_len new_size_array 0
          let consumed := sliced.1
          let new_keys := sliced.2
          let base := segments.segments
          let new_segments := new_keys.map (mkInsertedSegment SegmentType.FIXED_BOUNDARY)
          let after_insert :=
            base.take start ++ new_segments ++ base.drop (start + consumed_segments_size)
          let final :=
            if consumed < key_len then
              let remainder := (key.drop consumed).take (key_len - consumed)
              let next_index := start + new_keys.length
              if next_index < after_insert.length then
                after_insert.take next_index ++
                  mkInsertedSegment SegmentType.FREE
                    (remainder ++ (after_insert.getD next_index default).key) ::
                    after_insert.drop (next_index + 1)
              else
                after_insert.take next_index ++
                  [mkInsertedSegment SegmentType.FREE remainder] ++
                  after_insert.drop next_index
            else after_insert
          some { segments with segments := final, resized := true }

/-- `Converter::ResizeSegments` (converter.cc): the boundary repair
followed by `ApplyConversion` (abstracted as `apply_conversion`, since it
only invokes collaborators to refill candidates). -/
def ResizeSegments (apply_conversion : Segments → Segments) (segments : Segments)
    (request : ConversionRequest) (start_segment_index : Nat)
    (new_size_array : List Nat) : Option Segments :=
  (ResizeSegmentsSpliced segments request.request_type start_segment_index
      new_size_array).map apply_conversion

/-- `Converter::ResizeSegment` (converter.cc): validity checks, then a
single-size `ResizeSegments` with `CharsLen(key) + offset_length`. -/
def ResizeSegment (apply_conversion : Segments → Segments) (segments : Segments)
    (request : ConversionRequest) (segment_index : Nat)
    (offset_length : Int) : Option Segments :=
  if request.request_type ≠ RequestType.CONVERSION then none
  else if offset_length = 0 then none
  else if segment_index ≥ segments.conversion_segments_size then none
  else
    let key := (segments.conversion_segment segment_index).key
    if key = [] then none
    else
      let key_len : Int := key.length
      let new_size := key_len + offset_length
      if new_size ≤ 0 ∨ new_size > 255 then none
      else ResizeSegments apply_conversion segments request segment_index [new_size.toNat]

/-- Map a function over the conversion region, keeping the history region
(how the source's `for (Segment &segment : segments->conversion_segments())`
loops act on the buffer). -/
def Segments.mapConversionSegments (f : Segment → Segment) (s : Segments) : Segments :=
  { s with segments :=
      s.segments.takeWhile Segment.isHistorySegment ++
      (s.segments.dropWhile Segment.isHistorySegment).map f }

/-- `Converter::TrimCandidates` (converter.cc): without a
`candidates_size_limit` the buffer is untouched; with limit `L`, each
conversion segment whose candidate count reaches
`max(1, L - meta_candidates_size)` keeps only that many candidates. -/
def TrimCandidates (request : ConversionRequest) (segments : Segments) : Segments :=
  match request.candidates_size_limit with
  | none => segments
  | some limit =>
    segments.mapConversionSegments fun segment =>
      let candidates_size : Int := segment.candidates.length
      let candidates_limit : Int := max 1 (limit - segment.meta_candidates.length)
      if candidates_size < candidates_limit then segment
      else { segment with candidates := segment.candidates.take candidates_limit.toNat }

/-- The collaborators of the orchestrator, as abstract functions: the
predictor's `PredictForRequest`, the rewriter's `CheckResizeSegmentsRequest`
and `Rewrite`, the suppression dictionary, and the `ApplyConversion`
re-entry performed inside `ResizeSegments`. -/
structure Collaborators where
  predict : ConversionRequest → Segments → Bool × Segments
  check_resize_request : ConversionRequest → Segments → Option (Nat × List Nat)
  rewrite : ConversionRequest → Segments → Bool × Segments
  suppression_dictionary_empty : Bool
  suppress_entry : List Char → List Char → Bool
  apply_conversion_on_resize : Segments → Segments

/-- The suppression pass of `Converter::RewriteAndSuppressCandidates`
(converter.cc): erase, in every conversion segment, each candidate whose
`(key, value)` the suppression dictionary blocks. -/
def SuppressCandidates (collab : Collaborators) (segments : Segments) : Segments :=
  segments.mapConversionSegments fun segment =>
    { segment with candidates :=
        segment.candidates.filter fun cand =>
          !collab.suppress_entry cand.key cand.value }

/-- `Converter::RewriteAndSuppressCandidates` (converter.cc): optionally
resize (returning at once if the nested resize succeeded), then rewrite
(stopping if the rewriter reports no change), then suppress unless the
suppression dictionary is empty. -/
def RewriteAndSuppressCandidates (collab : Collaborators)
    (request : ConversionRequest) (segments : Segments) : Segments :=
  let resized : Option Segments :=
    match collab.check_resize_request request segments with
    | some (segment_index, segment_sizes) =>
        ResizeSegments collab.apply_conversion_on_resize segments request
          segment_index segment_sizes
    | none => none
  match resized with
  | some s => s
  | none =>
    let r := collab.rewrite request segments
    if !r.1 then r.2
    else if collab.suppression_dictionary_empty then r.2
    else SuppressCandidates collab r.2

/-- `Converter::StartConversion` (converter.cc): an empty key fails without
side effects; otherwise `SetKey`, `ApplyConversion` (abstracted), and the
`IsValidSegments` verdict. -/
def StartConversion (apply_conversion : Segments → Segments)
    (request : ConversionRequest) (segments : Segments) : Bool × Segments :=
  if request.key = [] then (false, segments)
  else
    let s := SetKey segments request.key
    let s := apply_conversion s
    (IsValidSegments request s, s)

/-- `Converter::StartReverseConversion` (converter.cc): clear first, then
fail on an empty key; otherwise `SetKey` and delegate to the reverse
converter facade. -/
def StartReverseConversion (reverse_convert : List Char → Segments → Bool × Segments)
    (segments : Segments) (key : List Char) : Bool × Segments :=
  let s := segments.Clear
  if key = [] then (false, s)
  else
    let s := SetKey s key
    reverse_convert key s

/-- `Converter::StartPrediction` (converter.cc): conditional `SetKey`,
predictor, rewrite-and-suppress, trim, and, for the partial variants,
`MaybeSetConsumedKeySizeToSegment(CharsLen(key))` on the first conversion
segment; returns the `IsValidSegments` verdict. -/
def StartPrediction (collab : Collaborators) (request : ConversionRequest)
    (segments : Segments) : Bool × Segments :=
  let key := request.key
  let s := if ShouldSetKeyForPrediction key segments then SetKey segments key
           else segments
  let s := (collab.predict request s).2
  let s := RewriteAndSuppressCandidates collab request s
  let s := TrimCandidates request s
  let s :=
    if request.request_type = RequestType.PARTIAL_SUGGESTION ∨
       request.request_type = RequestType.PARTIAL_PREDICTION then
      Segments.modifyFirstConversionSegment
        (MaybeSetConsumedKeySizeToSegment key.length) s
    else s
  (IsValidSegments request s, s)

/-- The candidate-size budgets tried by `Converter::CompletePosIds`
(converter.cc): `for (size = 5; size < 80; size += 50)` visits 5 and 55. -/
def expandSizes : List Nat := [5, 55]

/-- The per-budget attempt loop of `Converter::CompletePosIds`
(converter.cc).  `decode size key` abstracts building a one-segment buffer
with `SetKey` and running the immutable converter in `PREDICTION` mode with
`max_conversion_candidates_size = size`; it yields the candidate list of
segment 0, or `none` when `ConvertForRequest` fails (on which the source
returns at once, keeping the defaults). -/
def completePosIdsLoop (decode : Nat → List Char → Option (List Candidate))
    (candidate : Candidate) : List Nat → Candidate
  | [] => candidate
  | size :: rest =>
    match decode size candidate.key with
    | none => candidate
    | some refs =>
      match refs.find? (fun ref => ref.value = candidate.value) with
      | some ref =>
          { candidate with
              lid := ref.lid, rid := ref.rid, cost := ref.cost,
              wcost := ref.wcost, structure_cost := ref.structure_cost }
      | none => completePosIdsLoop decode candidate rest

/-- `Converter::CompletePosIds` (converter.cc): leave the candidate alone
when its value or key is empty, or when both POS ids are already non-zero;
otherwise default both ids to `general_noun_id` and try to refine them by
re-decoding the key with growing budgets. -/
def CompletePosIds (decode : Nat → List Char → Option (List Candidate))
    (general_noun_id : Nat) (candidate : Candidate) : Candidate :=
  if candidate.value = [] ∨ candidate.key = [] then candidate
  else if candidate.lid ≠ 0 ∧ candidate.rid ≠ 0 then candidate
  else
    let c := { candidate with lid := general_noun_id, rid := general_noun_id }
    completePosIdsLoop decode c expandSizes

/-- `Converter::FinishConversion` (converter.cc): rewrite `SUBMITTED`
segments to `FIXED_VALUE` and complete POS ids on candidate 0; clear revert
entries; notify rewriter and predictor (abstract functions); pop the front
segments beyond `max_history_segments_size`; mark the remaining segments
`HISTORY`.  (`CommitUsageStats` only emits counters and never mutates the
buffer.) -/
def FinishConversion (decode : Nat → List Char → Option (List Candidate))
    (general_noun_id : Nat)
    (rewriter_finish predictor_finish : ConversionRequest → Segments → Segments)
    (request : ConversionRequest) (segments : Segments) : Segments :=
  let s := { segments with segments := segments.segments.map fun (segment : Segment) =>
      let segment :=
        if segment.segment_type = SegmentType.SUBMITTED then
          { segment with segment_type := SegmentType.FIXED_VALUE }
        else segment
      match segment.candidates with
      | [] => segment
      | c0 :: rest =>
          { segment with candidates := CompletePosIds decode general_noun_id c0 :: rest } }
  let s := { s with revert_entries_size := 0 }
  let s := rewriter_finish request s
  let s := predictor_finish request s
  let start_index := s.segments.length - s.max_history_segments_size
  let s := { s with segments := s.segments.drop start_index }
  { s with segments := s.segments.map fun segment =>
      { segment with segment_type := SegmentType.HISTORY } }

/-- Concatenation of the keys of a list of segments. -/
def segKeys (l : List Segment) : List Char := (l.map Segment.key).flatten

/-- A state-transforming collaborator step keeps the key of the first
conversion segment. -/
def keepsFirstConversionKey (f : Segments → Segments) : Prop :=
  ∀ s k, s.firstConversionKey = some k → (f s).firstConversionKey = some k

/-- The concrete request exhibiting the bug of claim C2: a partial
prediction with the cursor at position 0 of a 2-codepoint composition. -/
def c2FailingRequest : ConversionRequest :=
  { request_type := RequestType.PARTIAL_PREDICTION, key := ['a'], cursor := 0,
    composition_length := 2, candidates_size_limit := none,
    zero_query_suggestion := false, mixed_conversion := false }

/-- Concrete one-segment buffer used by witnesses: one `FREE` segment with
key `ab` and two distinguishable candidates. -/
def commitDemoSegments : Segments :=
  { segments := [{ key := ['a', 'b'], segment_type := SegmentType.FREE,
                   candidates :=
                     [{ (default : Candidate) with value := ['x'] },
                      { (default : Candidate) with value := ['y'] }],
                   meta_candidates := [] }],
    max_history_segments_size := 4, resized := false, revert_entries_size := 0 }

/-- Identity-like collaborators used by witnesses: the predictor and
rewriter return the buffer unchanged, no resize is requested and the
suppression dictionary is empty. -/
def idCollaborators : Collaborators :=
  { predict := fun _ s => (true, s), check_resize_request := fun _ _ => none,
    rewrite := fun _ s => (true, s), suppression_dictionary_empty := true,
    suppress_entry := fun _ _ => false, apply_conversion_on_resize := fun s => s }

/-- A concrete prediction request with key `a`, used by witnesses. -/
def predDemoRequest : ConversionRequest :=
  { request_type := RequestType.PREDICTION, key := ['a'], cursor := 0,
    composition_length := 1, candidates_size_limit := none,
    zero_query_suggestion := false, mixed_conversion := false }

/-- An empty buffer, used by witnesses. -/
def emptyDemoSegments : Segments :=
  { segments := [], max_history_segments_size := 4, resized := false,
    revert_entries_size := 0 }

/-- The source key collected by `ResizeSegments` for a resize beginning at
absolute index `start` with total requested size `total`. -/
def resizeSourceKey (segments : Segments) (start total : Nat) : List Char :=
  (collectKey total (segments.segments.drop start)).1

/-- How many source segments the collection loop of `ResizeSegments`
consumes. -/
def resizeConsumedCount (segments : Segments) (start total : Nat) : Nat :=
  (collectKey total (segments.segments.drop start)).2

/-- The new segment keys cut out by the slicing loop of `ResizeSegments`. -/
def resizeNewKeys (segments : Segments) (start : Nat) (sizes : List Nat) : List (List Char) :=
  (sliceKeys (resizeSourceKey segments start sizes.sum)
    (resizeSourceKey segments start sizes.sum).length sizes 0).2

/-- How many segments replace the consumed range: the new `FIXED_BOUNDARY`
segments plus, when codepoints remain, one `FREE` remainder segment. -/
def resizeReplacedCount (segments : Segments) (start : Nat) (sizes : List Nat) : Nat :=
  (resizeNewKeys segments start sizes).length +
    (if sizes.sum < (resizeSourceKey segments start sizes.sum).length then 1 else 0)

/-- In the remainder case, the original key of the segment following the
consumed range (empty when no such segment exists, and in the
no-remainder case). -/
def resizeFollowKey (segments : Segments) (start : Nat) (sizes : List Nat) : List Char :=
  if sizes.sum < (resizeSourceKey segments start sizes.sum).length then
    segKeys ((segments.segments.drop
        (start + resizeConsumedCount segments start sizes.sum)).take 1)
  else []

/-- A two-segment buffer (keys `abc` and `de`) used by the resize witness. -/
def resizeDemoSegments : Segments :=
  { segments := [{ key := ['a', 'b', 'c'], segment_type := SegmentType.FREE,
                   candidates := [], meta_candidates := [] },
                 { key := ['d', 'e'], segment_type := SegmentType.FREE,
                   candidates := [], meta_candidates := [] }],
    max_history_segments_size := 4, resized := false, revert_entries_size := 0 }

theorem head?_dropWhile_not {α : Type} (p : α → Bool) (l : List α) :
    ∀ x, (l.dropWhile p).head? = some x → p x = false := by
  induction l with
  | nil => intro x hx; simp at hx
  | cons a l ih =>
    intro x hx
    by_cases ha : p a
    · rw [List.dropWhile_cons_of_pos ha] at hx
      exact ih x hx
    · rw [List.dropWhile_cons_of_neg ha] at hx
      simp at hx
      subst hx
      exact Bool.of_not_eq_true ha

theorem dropWhile_append_all {α : Type} (p : α → Bool) (l₁ l₂ : List α)
    (h₁ : ∀ x ∈ l₁, p x = true)
    (h₂ : ∀ x, l₂.head? = some x → p x = false) :
    (l₁ ++ l₂).dropWhile p = l₂ := by
  induction l₁ with
  | nil =>
    simp only [List.nil_append]
    cases l₂ with
    | nil => rfl
    | cons b t => rw [List.dropWhile_cons_of_neg (by simp [h₂ b rfl])]
  | cons a l ih =>
    have ha := h₁ a (by simp)
    rw [List.cons_append, List.dropWhile_cons_of_pos ha]
    exact ih fun x hx => h₁ x (by simp [hx])

theorem takeWhile_append_all {α : Type} (p : α → Bool) (l₁ l₂ : List α)
    (h₁ : ∀ x ∈ l₁, p x = true)
    (h₂ : ∀ x, l₂.head? = some x → p x = false) :
    (l₁ ++ l₂).takeWhile p = l₁ := by
  induction l₁ with
  | nil =>
    simp only [List.nil_append]
    cases l₂ with
    | nil => rfl
    | cons b t => rw [List.takeWhile_cons_of_neg (by simp [h₂ b rfl])]
  | cons a l ih =>
    have ha := h₁ a (by simp)
    rw [List.cons_append, List.takeWhile_cons_of_pos ha]
    rw [ih fun x hx => h₁ x (by simp [hx])]

/-- C6: `StartConversion` with an empty request key returns `false` and
leaves the `Segments` buffer completely unchanged. -/
theorem startConversion_empty_key_no_side_effects
    (apply_conversion : Segments → Segments) (request : ConversionRequest)
    (segments : Segments) (h : request.key = []) :
    StartConversion apply_conversion request segments = (false, segments) := by
  simp [StartConversion, h]

/-- Witness for C6 at a concrete empty-key request and non-trivial buffer. -/
theorem startConversion_empty_key_no_side_effects_witness :
    StartConversion (fun s => s)
      { request_type := RequestType.CONVERSION, key := [], cursor := 0,
        composition_length := 0, candidates_size_limit := none,
        zero_query_suggestion := false, mixed_conversion := false }
      { segments := [{ key := ['a'], segment_type := SegmentType.FREE,
                       candidates := [], meta_candidates := [] }],
        max_history_segments_size := 4, resized := false, revert_entries_size := 0 } =
    (false,
      { segments := [{ key := ['a'], segment_type := SegmentType.FREE,
                       candidates := [], meta_candidates := [] }],
        max_history_segments_size := 4, resized := false, revert_entries_size := 0 }) :=
  startConversion_empty_key_no_side_effects _ _ _ rfl

/-- C10: `StartReverseConversion` with an empty key returns `false`, but the
buffer has nevertheless been cleared, because `Clear` runs before the
emptiness check (unlike `StartConversion`, whose empty-key failure has no
side effects). -/
theorem startReverseConversion_empty_key_clears
    (reverse_convert : List Char → Segments → Bool × Segments) (segments : Segments) :
    StartReverseConversion reverse_convert segments [] = (false, segments.Clear) ∧
    (segments.Clear).segments = [] := by
  exact ⟨rfl, rfl⟩

/-- C2 (code bug): at cursor 0 of a length-2 composition the source's
partial-prediction guard `cursor != 0 || cursor != GetLength()` accepts the
request, although the cursor is not strictly inside the composition; the
guard therefore differs from the spec predicate `0 < cursor < length` (the
source's own comment states the "middle of the composer" intent). -/
theorem validateForPrediction_cursor_zero_accepted :
    ValidateConversionRequestForPrediction c2FailingRequest = true ∧
    specCursorStrictlyInside c2FailingRequest = false := by
  exact ⟨rfl, rfl⟩

/-- C9: `CompletePosIds` leaves a candidate entirely unchanged whenever its
value or key is empty; and whenever it changes a candidate at all, that
candidate had a non-empty key and value and a zero `lid` or `rid`. -/
theorem completePosIds_untouched_cases
    (decode : Nat → List Char → Option (List Candidate)) (general_noun_id : Nat)
    (candidate : Candidate) :
    ((candidate.value = [] ∨ candidate.key = []) →
      CompletePosIds decode general_noun_id candidate = candidate) ∧
    (CompletePosIds decode general_noun_id candidate ≠ candidate →
      candidate.key ≠ [] ∧ candidate.value ≠ [] ∧
      (candidate.lid = 0 ∨ candidate.rid = 0)) := by
  constructor
  · intro h
    simp [CompletePosIds, h]
  · intro hne
    by_cases hv : candidate.value = [] ∨ candidate.key = []
    · exact absurd (by simp [CompletePosIds, hv]) hne
    · push_neg at hv
      by_cases hl : candidate.lid ≠ 0 ∧ candidate.rid ≠ 0
      · exact absurd (by simp [CompletePosIds, hv.1, hv.2, hl]) hne
      · refine ⟨hv.2, hv.1, ?_⟩
        rcases Decidable.not_and_iff_or_not.mp hl with h | h
        · exact Or.inl (by omega)
        · exact Or.inr (by omega)

/-- Witness for C9: a candidate with an empty value is returned unchanged. -/
theorem completePosIds_untouched_cases_witness :
    CompletePosIds (fun _ _ => none) 7
      { key := ['a'], value := [], lid := 0, rid := 0, cost := 0, wcost := 0,
        structure_cost := 0, attributes := 0, consumed_key_size := 0 } =
      { key := ['a'], value := [], lid := 0, rid := 0, cost := 0, wcost := 0,
        structure_cost := 0, attributes := 0, consumed_key_size := 0 } :=
  (completePosIds_untouched_cases _ _ _).1 (Or.inl rfl)

theorem isHistorySegment_of_type_eq (f : Segment → Segment) (seg : Segment)
    (hf : (f seg).segment_type = seg.segment_type) :
    (f seg).isHistorySegment = seg.isHistorySegment := by
  simp [Segment.isHistorySegment, hf]

theorem mapConversionSegments_conversion (f : Segment → Segment) (s : Segments)
    (hf : ∀ seg, (f seg).segment_type = seg.segment_type) :
    (s.mapConversionSegments f).conversion_segments = s.conversion_segments.map f := by
  unfold Segments.mapConversionSegments Segments.conversion_segments
  apply dropWhile_append_all
  · exact fun x hx => List.mem_takeWhile_imp hx
  · intro x hx
    cases hd : s.segments.dropWhile Segment.isHistorySegment with
    | nil => rw [hd] at hx; simp at hx
    | cons y rest =>
      rw [hd] at hx
      simp at hx
      have hy : Segment.isHistorySegment y = false :=
        head?_dropWhile_not _ _ y (by rw [hd]; rfl)
      rw [← hx, isHistorySegment_of_type_eq f y (hf y)]
      exact hy

theorem mapConversionSegments_history (f : Segment → Segment) (s : Segments)
    (hf : ∀ seg, (f seg).segment_type = seg.segment_type) :
    (s.mapConversionSegments f).segments.takeWhile Segment.isHistorySegment =
      s.segments.takeWhile Segment.isHistorySegment := by
  unfold Segments.mapConversionSegments
  apply takeWhile_append_all
  · exact fun x hx => List.mem_takeWhile_imp hx
  · intro x hx
    cases hd : s.segments.dropWhile Segment.isHistorySegment with
    | nil => rw [hd] at hx; simp at hx
    | cons y rest =>
      rw [hd] at hx
      simp at hx
      have hy : Segment.isHistorySegment y = false :=
        head?_dropWhile_not _ _ y (by rw [hd]; rfl)
      rw [← hx, isHistorySegment_of_type_eq f y (hf y)]
      exact hy

/-- C8: without a `candidates_size_limit` the buffer is unchanged; with a
limit `L`, every conversion segment keeps exactly the first
`max(1, L - meta_candidates_size)` of its candidates (so surviving order
and content are a prefix, and meta candidates are untouched), the history
region is untouched, and every conversion segment ends with at most
`max(1, L - meta_candidates_size)` candidates. -/
theorem trimCandidates_spec (request : ConversionRequest) (segments : Segments) :
    (request.candidates_size_limit = none → TrimCandidates request segments = segments) ∧
    (∀ limit, request.candidates_size_limit = some limit →
      (TrimCandidates request segments).conversion_segments =
        segments.conversion_segments.map (fun segment =>
          { segment with candidates :=
              segment.candidates.take (max 1 (limit - (segment.meta_candidates.length : Int))).toNat }) ∧
      (TrimCandidates request segments).segments.takeWhile Segment.isHistorySegment =
        segments.segments.takeWhile Segment.isHistorySegment ∧
      (∀ segment ∈ (TrimCandidates request segments).conversion_segments,
        (segment.candidates.length : Int) ≤
          max 1 (limit - (segment.meta_candidates.length : Int)))) := by
  constructor
  · intro h
    simp [TrimCandidates, h]
  · intro limit hlimit
    have hfun : (fun segment =>
        let candidates_size : Int := segment.candidates.length
        let candidates_limit : Int := max 1 (limit - (segment.meta_candidates.length : Int))
        if candidates_size < candidates_limit then segment
        else { segment with candidates := segment.candidates.take candidates_limit.toNat }) =
        (fun segment : Segment =>
          { segment with candidates :=
              segment.candidates.take (max 1 (limit - (segment.meta_candidates.length : Int))).toNat }) := by
      funext segment
      by_cases hcase : (segment.candidates.length : Int) <
          max 1 (limit - (segment.meta_candidates.length : Int))
      · simp only [if_pos hcase]
        have hle : segment.candidates.length ≤
            (max 1 (limit - (segment.meta_candidates.length : Int))).toNat := by omega
        rw [List.take_of_length_le hle]
      · simp only [if_neg hcase]
    have htrim : TrimCandidates request segments =
        segments.mapConversionSegments (fun segment : Segment =>
          { segment with candidates :=
              segment.candidates.take (max 1 (limit - (segment.meta_candidates.length : Int))).toNat }) := by
      simp only [TrimCandidates, hlimit]
      rw [hfun]
    have htype : ∀ seg : Segment,
        (({ seg with candidates :=
              seg.candidates.take (max 1 (limit - (seg.meta_candidates.length : Int))).toNat } :
            Segment)).segment_type = seg.segment_type := fun _ => rfl
    refine ⟨?_, ?_, ?_⟩
    · rw [htrim]
      exact mapConversionSegments_conversion _ _ htype
    · rw [htrim]
      exact mapConversionSegments_history _ _ htype
    · intro segment hmem
      rw [htrim, mapConversionSegments_conversion _ _ htype] at hmem
      rcases List.mem_map.mp hmem with ⟨orig, _, horig⟩
      subst horig
      simp only [List.length_take]
      omega

/-- Witness for C8 with limit 2 on a conversion segment carrying three
candidates and one meta candidate. -/
theorem trimCandidates_spec_witness :
    (TrimCandidates
        { request_type := RequestType.PREDICTION, key := ['a'], cursor := 0,
          composition_length := 0, candidates_size_limit := some 2,
          zero_query_suggestion := false, mixed_conversion := false }
        { segments := [{ key := ['a'], segment_type := SegmentType.FREE,
                         candidates := [default, default, default],
                         meta_candidates := [default] }],
          max_history_segments_size := 4, resized := false,
          revert_entries_size := 0 }).conversion_segments =
      ({ segments := [{ key := ['a'], segment_type := SegmentType.FREE,
                        candidates := [default, default, default],
                        meta_candidates := [default] }],
         max_history_segments_size := 4, resized := false,
         revert_entries_size := 0 } : Segments).conversion_segments.map
        (fun segment =>
          { segment with candidates :=
              segment.candidates.take (max 1 (2 - (segment.meta_candidates.length : Int))).toNat }) :=
  ((trimCandidates_spec _ _).2 2 rfl).1

/-- C7: `ResizeSegment` returns `none` whenever the request is not a
`CONVERSION`, the offset is zero, or the new size `k + offset` (with `k`
the codepoint length of the addressed conversion segment's key) is `≤ 0` or
`> 255`; and when every validity condition holds (the listed ones together
with a valid segment index and a non-empty key) it resolves to
`ResizeSegments` with the single size `k + offset`. -/
theorem resizeSegment_validity
    (apply_conversion : Segments → Segments) (segments : Segments)
    (request : ConversionRequest) (segment_index : Nat) (offset_length : Int) :
    ((request.request_type ≠ RequestType.CONVERSION ∨ offset_length = 0 ∨
      ((segments.conversion_segment segment_index).key.length : Int) + offset_length ≤ 0 ∨
      ((segments.conversion_segment segment_index).key.length : Int) + offset_length > 255) →
      ResizeSegment apply_conversion segments request segment_index offset_length = none) ∧
    (request.request_type = RequestType.CONVERSION →
     offset_length ≠ 0 →
     segment_index < segments.conversion_segments_size →
     (segments.conversion_segment segment_index).key ≠ [] →
     0 < ((segments.conversion_segment segment_index).key.length : Int) + offset_length →
     ((segments.conversion_segment segment_index).key.length : Int) + offset_length ≤ 255 →
     ResizeSegment apply_conversion segments request segment_index offset_length =
       ResizeSegments apply_conversion segments request segment_index
         [(((segments.conversion_segment segment_index).key.length : Int) +
             offset_length).toNat]) := by
  constructor
  · intro h
    unfold ResizeSegment
    dsimp only
    split_ifs with h1 h2 h3 h4 h5
    · rfl
    · rfl
    · rfl
    · rfl
    · rfl
    · rcases h with h | h | h | h
      · exact absurd h h1
      · exact absurd h h2
      · exact absurd (Or.inl h) h5
      · exact absurd (Or.inr h) h5
  · intro h1 h2 h3 h4 h5 h6
    unfold ResizeSegment
    dsimp only
    rw [if_neg (by simpa using h1), if_neg h2, if_neg (by omega), if_neg h4,
      if_neg (by omega)]

/-- Witness for C7: the zero-offset case returns `none` on a concrete
buffer, and the valid case resolves to a single-size `ResizeSegments`. -/
theorem resizeSegment_validity_witness :
    ResizeSegment (fun s => s)
      { segments := [{ key := ['a', 'b'], segment_type := SegmentType.FREE,
                       candidates := [], meta_candidates := [] }],
        max_history_segments_size := 4, resized := false, revert_entries_size := 0 }
      { request_type := RequestType.CONVERSION, key := ['a', 'b'], cursor := 0,
        composition_length := 0, candidates_size_limit := none,
        zero_query_suggestion := false, mixed_conversion := false }
      0 0 = none :=
  (resizeSegment_validity _ _ _ _ _).1 (Or.inr (Or.inl rfl))

/-- C4: `CommitSegmentValue` fails exactly when the translated absolute
index overflows the buffer or the candidate index lies outside
`[-NumT13n, candidates_size)`; on success the addressed segment becomes
`FIXED_VALUE`, the selected candidate moves to index 0, and `RERANKED` is
ORed into the new index-0 candidate exactly when the index was non-zero. -/
theorem commitSegmentValue_spec (num_t13n : Nat) (segments : Segments)
    (segment_index : Nat) (candidate_index : Int) :
    (CommitSegmentValue num_t13n segments segment_index candidate_index = none ↔
      GetSegmentIndex segments segment_index = none ∨
      candidate_index < -(num_t13n : Int) ∨
      candidate_index ≥ ((segments.segments.getD
          (segments.history_segments_size + segment_index)
          default).candidates.length : Int)) ∧
    (∀ idx, GetSegmentIndex segments segment_index = some idx →
      -(num_t13n : Int) ≤ candidate_index →
      candidate_index <
        ((segments.segments.getD idx default).candidates.length : Int) →
      CommitSegmentValue num_t13n segments segment_index candidate_index =
        some { segments with segments := (segments.segments.set idx
          { segments.segments.getD idx default with
              segment_type := SegmentType.FIXED_VALUE,
              candidates :=
                if candidate_index ≠ 0 then
                  markRerankedAtZero
                    (moveCandidateToZero (segments.segments.getD idx default)
                      candidate_index)
                else
                  moveCandidateToZero (segments.segments.getD idx default)
                    candidate_index }) }) := by
  have hidx_eq : ∀ idx, GetSegmentIndex segments segment_index = some idx →
      idx = segments.history_segments_size + segment_index := by
    intro idx hg
    unfold GetSegmentIndex at hg
    dsimp only at hg
    split at hg
    · exact absurd hg (by simp)
    · exact (Option.some_injective _ hg).symm
  constructor
  · unfold CommitSegmentValue CommitSegmentValueInternal
    cases hg : GetSegmentIndex segments segment_index with
    | none => simp [hg]
    | some idx =>
      have h := hidx_eq idx hg
      subst h
      simp only [hg]
      constructor
      · intro hnone
        by_cases hc : candidate_index < -(num_t13n : Int) ∨
            candidate_index ≥ ((segments.segments.getD
              (segments.history_segments_size + segment_index)
              default).candidates.length : Int)
        · exact Or.inr hc
        · rw [if_neg hc] at hnone
          exact absurd hnone (by simp)
      · intro hor
        rcases hor with h | h | h
        · exact absurd h (by simp)
        · rw [if_pos (Or.inl h)]
        · rw [if_pos (Or.inr h)]
  · intro idx hg hge hlt
    unfold CommitSegmentValue CommitSegmentValueInternal
    simp only [hg]
    rw [if_neg (by omega)]

/-- Witness for C4: committing candidate 1 of a concrete one-segment buffer
succeeds and produces the reranked, reordered candidate list. -/
theorem commitSegmentValue_spec_witness :
    CommitSegmentValue 11 commitDemoSegments 0 1 =
      some { commitDemoSegments with
               segments := (commitDemoSegments.segments.set 0
                 { commitDemoSegments.segments.getD 0 default with
                     segment_type := SegmentType.FIXED_VALUE,
                     candidates :=
                       if (1 : Int) ≠ 0 then
                         markRerankedAtZero
                           (moveCandidateToZero
                             (commitDemoSegments.segments.getD 0 default) 1)
                       else
                         moveCandidateToZero
                           (commitDemoSegments.segments.getD 0 default) 1 }) } :=
  (commitSegmentValue_spec 11 commitDemoSegments 0 1).2 0 (by decide) (by decide) (by decide)

theorem marked_history_bound (l : List Segment) (m : Nat) :
    (((l.drop (l.length - m)).map
        (fun segment => { segment with segment_type := SegmentType.HISTORY })).takeWhile
        Segment.isHistorySegment).length ≤ m ∧
    ∀ segment ∈ (l.drop (l.length - m)).map
        (fun segment => { segment with segment_type := SegmentType.HISTORY }),
      segment.segment_type = SegmentType.HISTORY := by
  constructor
  · have hall : ∀ x ∈ (l.drop (l.length - m)).map
        (fun segment => { segment with segment_type := SegmentType.HISTORY }),
        Segment.isHistorySegment x = true := by
      intro x hx
      rcases List.mem_map.mp hx with ⟨y, _, hy⟩
      subst hy
      simp [Segment.isHistorySegment]
    rw [List.takeWhile_eq_self_iff.mpr hall]
    simp only [List.length_map, List.length_drop]
    omega
  · intro segment hseg
    rcases List.mem_map.mp hseg with ⟨y, _, hy⟩
    subst hy
    rfl

/-- C3: after `FinishConversion` the history size is bounded by
`max_history_segments_size` and every remaining segment is `HISTORY`
(the surplus segments having been popped from the front). -/
theorem finishConversion_history_invariant
    (decode : Nat → List Char → Option (List Candidate)) (general_noun_id : Nat)
    (rewriter_finish predictor_finish : ConversionRequest → Segments → Segments)
    (request : ConversionRequest) (segments : Segments) :
    (FinishConversion decode general_noun_id rewriter_finish predictor_finish
        request segments).history_segments_size ≤
      (FinishConversion decode general_noun_id rewriter_finish predictor_finish
        request segments).max_history_segments_size ∧
    ∀ segment ∈ (FinishConversion decode general_noun_id rewriter_finish
        predictor_finish request segments).segments,
      segment.segment_type = SegmentType.HISTORY := by
  unfold FinishConversion Segments.history_segments_size
  dsimp only
  exact marked_history_bound _ _

theorem firstConversionKey_SetKey (s : Segments) (key : List Char) :
    (SetKey s key).firstConversionKey = some key := by
  unfold SetKey Segments.firstConversionKey Segments.conversion_segments
    Segments.clear_conversion_segments
  dsimp only
  rw [dropWhile_append_all _ _ _ (fun x hx => List.mem_takeWhile_imp hx) ?_]
  · rfl
  · intro x hx
    simp at hx
    subst hx
    rfl

theorem firstKey_some_shouldSetKey_false (s : Segments) (key : List Char)
    (h : s.firstConversionKey = some key) :
    ShouldSetKeyForPrediction key s = false := by
  unfold Segments.firstConversionKey at h
  unfold ShouldSetKeyForPrediction Segments.conversion_segments_size
    Segments.conversion_segment
  cases hd : s.conversion_segments with
  | nil => rw [hd] at h; simp at h
  | cons y rest =>
    rw [hd] at h
    simp at h
    simp [h]

theorem firstKey_of_not_shouldSetKey (s : Segments) (key : List Char)
    (h : ¬ ShouldSetKeyForPrediction key s = true) :
    s.firstConversionKey = some key := by
  unfold ShouldSetKeyForPrediction at h
  simp only [decide_eq_true_eq, not_or, not_not] at h
  obtain ⟨hsz, hkey⟩ := h
  unfold Segments.conversion_segments_size at hsz
  unfold Segments.firstConversionKey
  cases hd : s.conversion_segments with
  | nil => rw [hd] at hsz; simp at hsz
  | cons y rest =>
    unfold Segments.conversion_segment at hkey
    rw [hd] at hkey
    simp at hkey
    simp [hkey]

theorem mapConversionSegments_firstKey (f : Segment → Segment) (s : Segments)
    (hty : ∀ seg, (f seg).segment_type = seg.segment_type)
    (hkey : ∀ seg, (f seg).key = seg.key) (k : List Char)
    (h : s.firstConversionKey = some k) :
    (s.mapConversionSegments f).firstConversionKey = some k := by
  unfold Segments.firstConversionKey at *
  rw [mapConversionSegments_conversion f s hty]
  cases hd : s.conversion_segments with
  | nil => rw [hd] at h; simp at h
  | cons y rest =>
    rw [hd] at h
    simp at h
    simp [hkey y, h]

theorem modifyFirstConversionSegment_firstKey (f : Segment → Segment) (s : Segments)
    (hty : ∀ seg, (f seg).segment_type = seg.segment_type)
    (hkey : ∀ seg, (f seg).key = seg.key) (k : List Char)
    (h : s.firstConversionKey = some k) :
    (Segments.modifyFirstConversionSegment f s).firstConversionKey = some k := by
  unfold Segments.firstConversionKey at *
  unfold Segments.modifyFirstConversionSegment Segments.conversion_segments at *
  dsimp only
  cases hd : s.segments.dropWhile Segment.isHistorySegment with
  | nil => rw [hd] at h; simp at h
  | cons y rest =>
    rw [hd] at h
    simp at h
    have hy : Segment.isHistorySegment y = false :=
      head?_dropWhile_not _ _ y (by rw [hd]; rfl)
    dsimp only
    rw [dropWhile_append_all _ _ (f y :: rest)
      (fun x hx => List.mem_takeWhile_imp hx) ?_]
    · simp [hkey y, h]
    · intro x hx
      simp at hx
      rw [← hx, isHistorySegment_of_type_eq f y (hty y)]
      exact hy

theorem suppressCandidates_firstKey (collab : Collaborators) (s : Segments)
    (k : List Char) (h : s.firstConversionKey = some k) :
    (SuppressCandidates collab s).firstConversionKey = some k := by
  unfold SuppressCandidates
  apply mapConversionSegments_firstKey
  · exact fun _ => rfl
  · exact fun _ => rfl
  · exact h

theorem trimCandidates_firstKey (request : ConversionRequest) (s : Segments)
    (k : List Char) (h : s.firstConversionKey = some k) :
    (TrimCandidates request s).firstConversionKey = some k := by
  unfold TrimCandidates
  cases request.candidates_size_limit with
  | none => exact h
  | some limit =>
    dsimp only
    apply mapConversionSegments_firstKey
    · intro seg
      dsimp only
      split
      · rfl
      · rfl
    · intro seg
      dsimp only
      split
      · rfl
      · rfl
    · exact h

theorem rewriteAndSuppress_firstKey (collab : Collaborators)
    (request : ConversionRequest)
    (hty : request.request_type ≠ RequestType.CONVERSION)
    (hrew : keepsFirstConversionKey fun s => (collab.rewrite request s).2)
    (s : Segments) (k : List Char) (h : s.firstConversionKey = some k) :
    (RewriteAndSuppressCandidates collab request s).firstConversionKey = some k := by
  unfold RewriteAndSuppressCandidates
  dsimp only
  have hres : ∀ i szs,
      ResizeSegments collab.apply_conversion_on_resize s request i szs = none := by
    intro i szs
    unfold ResizeSegments ResizeSegmentsSpliced
    rw [if_pos hty]
    rfl
  have hrw : ((collab.rewrite request s).2).firstConversionKey = some k := hrew s k h
  cases hcr : collab.check_resize_request request s with
  | none =>
    dsimp only
    split
    · exact hrw
    · split
      · exact hrw
      · exact suppressCandidates_firstKey collab _ k hrw
  | some p =>
    obtain ⟨i, szs⟩ := p
    dsimp only
    rw [hres i szs]
    dsimp only
    split
    · exact hrw
    · split
      · exact hrw
      · exact suppressCandidates_firstKey collab _ k hrw

theorem startPrediction_firstKey (collab : Collaborators)
    (request : ConversionRequest)
    (hty : request.request_type ≠ RequestType.CONVERSION)
    (hpred : keepsFirstConversionKey fun s => (collab.predict request s).2)
    (hrew : keepsFirstConversionKey fun s => (collab.rewrite request s).2)
    (s : Segments) :
    ((StartPrediction collab request s).2).firstConversionKey = some request.key := by
  unfold StartPrediction
  dsimp only
  have h1 : (if ShouldSetKeyForPrediction request.key s then SetKey s request.key
      else s).firstConversionKey = some request.key := by
    split
    · exact firstConversionKey_SetKey s request.key
    · next hn => exact firstKey_of_not_shouldSetKey s request.key hn
  have h2 := hpred _ _ h1
  have h3 := rewriteAndSuppress_firstKey collab request hty hrew _ _ h2
  have h4 := trimCandidates_firstKey request _ _ h3
  split
  · exact modifyFirstConversionSegment_firstKey
      (MaybeSetConsumedKeySizeToSegment request.key.length) _
      (fun _ => rfl) (fun _ => rfl) _ h4
  · exact h4

/-- C5: `StartPrediction` resets the key exactly when the conversion region
is empty or its first key differs from `req.key`; consequently after one
call the first conversion key equals `req.key`, a second call with the same
key performs no reset, and the key stays stable across the second call
(given that the predictor and rewriter collaborators keep the first
conversion key). -/
theorem startPrediction_reset_iff_and_key_stable
    (collab : Collaborators) (request : ConversionRequest) (segments : Segments)
    (hty : request.request_type ≠ RequestType.CONVERSION)
    (hpred : keepsFirstConversionKey fun s => (collab.predict request s).2)
    (hrew : keepsFirstConversionKey fun s => (collab.rewrite request s).2) :
    (ShouldSetKeyForPrediction request.key segments = true ↔
      segments.conversion_segments_size = 0 ∨
      (segments.conversion_segment 0).key ≠ request.key) ∧
    (StartPrediction collab request segments).2.firstConversionKey =
      some request.key ∧
    ShouldSetKeyForPrediction request.key
      (StartPrediction collab request segments).2 = false ∧
    (StartPrediction collab request
        (StartPrediction collab request segments).2).2.firstConversionKey =
      some request.key := by
  refine ⟨?_, ?_, ?_, ?_⟩
  · unfold ShouldSetKeyForPrediction
    simp
  · exact startPrediction_firstKey collab request hty hpred hrew segments
  · exact firstKey_some_shouldSetKey_false _ _
      (startPrediction_firstKey collab request hty hpred hrew segments)
  · exact startPrediction_firstKey collab request hty hpred hrew _

/-- Witness for C5: with identity collaborators and key `a`, the second of
two consecutive `StartPrediction` calls performs no reset and the first
conversion key stays `a`. -/
theorem startPrediction_reset_iff_and_key_stable_witness :
    ShouldSetKeyForPrediction ['a']
      (StartPrediction idCollaborators predDemoRequest emptyDemoSegments).2 = false ∧
    (StartPrediction idCollaborators predDemoRequest
        (StartPrediction idCollaborators predDemoRequest
          emptyDemoSegments).2).2.firstConversionKey = some ['a'] := by
  have h := startPrediction_reset_iff_and_key_stable idCollaborators
    predDemoRequest emptyDemoSegments (by decide)
    (fun s k hk => hk) (fun s k hk => hk)
  exact ⟨h.2.2.1, h.2.2.2⟩

theorem segKeys_nil : segKeys [] = [] := rfl

theorem segKeys_cons (a : Segment) (l : List Segment) :
    segKeys (a :: l) = a.key ++ segKeys l := by
  simp [segKeys]

theorem segKeys_append (l₁ l₂ : List Segment) :
    segKeys (l₁ ++ l₂) = segKeys l₁ ++ segKeys l₂ := by
  simp [segKeys]

theorem segKeys_map_mk (st : SegmentType) (ks : List (List Char)) :
    segKeys (ks.map (mkInsertedSegment st)) = ks.flatten := by
  induction ks with
  | nil => rfl
  | cons k t ih => simp only [List.map_cons, segKeys_cons, List.flatten_cons, ih]; rfl

theorem getD_append_length {α : Type} [Inhabited α] (l₁ : List α) (x : α) (l₂ : List α) :
    (l₁ ++ x :: l₂).getD l₁.length default = x := by
  induction l₁ with
  | nil => rfl
  | cons a t ih => simpa using ih

theorem collectKey_count_le (total : Nat) (l : List Segment) :
    (collectKey total l).2 ≤ l.length := by
  induction l generalizing total with
  | nil => simp [collectKey]
  | cons seg rest ih =>
    unfold collectKey
    dsimp only
    split
    · simp
    · have := ih (total - seg.key.length)
      simp only [List.length_cons]
      omega

theorem collectKey_key_eq (total : Nat) (l : List Segment) :
    (collectKey total l).1 = segKeys (l.take (collectKey total l).2) := by
  induction l generalizing total with
  | nil => simp [collectKey, segKeys]
  | cons seg rest ih =>
    unfold collectKey
    dsimp only
    split
    · simp [segKeys]
    · rw [List.take_succ_cons, segKeys_cons, ← ih (total - seg.key.length)]

theorem sliceKeys_spec (key : List Char) (sizes : List Nat) :
    ∀ c, c + sizes.sum ≤ key.length →
      (sliceKeys key key.length sizes c).1 = c + sizes.sum ∧
      ((sliceKeys key key.length sizes c).2).flatten = (key.drop c).take sizes.sum := by
  induction sizes with
  | nil => intro c _; simp [sliceKeys]
  | cons sz rest ih =>
    intro c hc
    rw [List.sum_cons] at hc
    unfold sliceKeys
    dsimp only
    by_cases hsz : sz = 0
    · subst hsz
      rw [if_neg (by simp)]
      have h := ih c (by omega)
      simpa using h
    · have hcl : c < key.length := by omega
      rw [if_pos ⟨hsz, hcl⟩]
      dsimp only
      have hrec := ih (c + sz) (by omega)
      constructor
      · rw [hrec.1, List.sum_cons]
        omega
      · rw [List.flatten_cons, hrec.2, List.sum_cons]
        have hdd : (key.drop c).drop sz = key.drop (c + sz) := by
          rw [List.drop_drop]
        rw [List.take_add, hdd]

/-- C1: `ResizeSegments` is conservative on key content: for a valid start
index and a size array with non-zero total not exceeding the accumulated
codepoint length of the consumed source segments, the concatenation of the
keys of the segments that replace the consumed range (the new
`FIXED_BOUNDARY` segments plus any `FREE` remainder segment, including a
remainder merged into the following segment) equals the concatenation of
the keys of the consumed source segments, plus, in the merge case, the
following segment's original key. -/
theorem resizeSegments_conservative (segments : Segments) (start_rel : Nat)
    (sizes : List Nat) (start : Nat)
    (hstart : GetSegmentIndex segments start_rel = some start)
    (htotal : sizes.sum ≠ 0)
    (hav : sizes.sum ≤ (resizeSourceKey segments start sizes.sum).length) :
    ∃ result : Segments,
      ResizeSegmentsSpliced segments RequestType.CONVERSION start_rel sizes =
        some result ∧
      segKeys ((result.segments.drop start).take
          (resizeReplacedCount segments start sizes)) =
        segKeys ((segments.segments.drop start).take
          (resizeConsumedCount segments start sizes.sum)) ++
        resizeFollowKey segments start sizes := by
  unfold resizeSourceKey at hav
  unfold ResizeSegmentsSpliced resizeReplacedCount resizeFollowKey
    resizeConsumedCount resizeNewKeys resizeSourceKey
  rw [if_neg (by simp), hstart]
  dsimp only
  rw [if_neg htotal]
  set T := sizes.sum with hT
  set K := (collectKey T (segments.segments.drop start)).1 with hKdef
  set n := (collectKey T (segments.segments.drop start)).2 with hndef
  have hbad : ¬(K.length = 0 ∨ K.length < T) := by omega
  rw [if_neg hbad]
  refine ⟨_, rfl, ?_⟩
  dsimp only
  set NK := (sliceKeys K K.length sizes 0).2 with hNKdef
  have hsp := sliceKeys_spec K sizes 0 (by omega)
  have hcons : (sliceKeys K K.length sizes 0).1 = T := by
    rw [hsp.1]
    omega
  have hflat : NK.flatten = K.take T := by
    rw [hNKdef, hsp.2]
    simp
  rw [hcons]
  have hlt : start < segments.segments.length := by
    unfold GetSegmentIndex at hstart
    dsimp only at hstart
    split at hstart
    · exact absurd hstart (by simp)
    · next h =>
      have h2 := Option.some_injective _ hstart
      omega
  have hnle : n ≤ (segments.segments.drop start).length := by
    rw [hndef]
    exact collectKey_count_le T _
  have hlen_take : (segments.segments.take start).length = start := by
    rw [List.length_take]
    omega
  have hstartn : start + n ≤ segments.segments.length := by
    rw [List.length_drop] at hnle
    omega
  have hdropstart : ∀ X : List Segment,
      (segments.segments.take start ++ X).drop start = X := by
    intro X
    have h := List.drop_left (segments.segments.take start) X
    rwa [hlen_take] at h
  have hKsrc : K = segKeys ((segments.segments.drop start).take n) := by
    rw [hKdef, hndef]
    exact collectKey_key_eq T _
  have hNSlen : (NK.map (mkInsertedSegment SegmentType.FIXED_BOUNDARY)).length
      = NK.length := List.length_map _ _
  by_cases hTL : T < K.length
  · -- remainder case
    simp only [if_pos hTL]
    have hrem : List.take (K.length - T) (List.drop T K) = K.drop T := by
      have hlen : (K.drop T).length = K.length - T := List.length_drop _ _
      rw [← hlen, List.take_length]
    rw [hrem]
    cases hnext : segments.segments.drop (start + n) with
    | nil =>
      have hlen0 : (segments.segments.take start ++
          NK.map (mkInsertedSegment SegmentType.FIXED_BOUNDARY) ++
          ([] : List Segment)).length = start + NK.length := by
        simp [hlen_take]
      have hc1 : ¬(start + NK.length < (segments.segments.take start ++
          NK.map (mkInsertedSegment SegmentType.FIXED_BOUNDARY) ++
          ([] : List Segment)).length) := by omega
      rw [if_neg hc1]
      have htakeA : (segments.segments.take start ++
          NK.map (mkInsertedSegment SegmentType.FIXED_BOUNDARY) ++
          ([] : List Segment)).take (start + NK.length) =
          segments.segments.take start ++
          NK.map (mkInsertedSegment SegmentType.FIXED_BOUNDARY) ++
          ([] : List Segment) := List.take_of_length_le (le_of_eq hlen0)
      have hdropA : (segments.segments.take start ++
          NK.map (mkInsertedSegment SegmentType.FIXED_BOUNDARY) ++
          ([] : List Segment)).drop (start + NK.length) = [] := by
        rw [← hlen0]
        exact List.drop_length _
      rw [htakeA, hdropA]
      simp only [List.append_nil, List.append_assoc]
      rw [hdropstart]
      have htake1 : ((NK.map (mkInsertedSegment SegmentType.FIXED_BOUNDARY)) ++
          [mkInsertedSegment SegmentType.FREE (K.drop T)]).take (NK.length + 1) =
          (NK.map (mkInsertedSegment SegmentType.FIXED_BOUNDARY)) ++
          [mkInsertedSegment SegmentType.FREE (K.drop T)] :=
        List.take_of_length_le (by simp)
      rw [htake1]
      rw [segKeys_append, segKeys_map_mk, hflat, segKeys_cons, segKeys_nil]
      rw [List.take_nil, segKeys_nil]
      dsimp only [mkInsertedSegment]
      rw [List.append_nil, List.append_nil, List.take_append_drop]
      exact hKsrc
    | cons f rest =>
      have hlen2 : (segments.segments.take start ++
          NK.map (mkInsertedSegment SegmentType.FIXED_BOUNDARY)).length =
          start + NK.length := by
        simp [hlen_take]
      have hlenA : (segments.segments.take start ++
          NK.map (mkInsertedSegment SegmentType.FIXED_BOUNDARY) ++
          (f :: rest)).length = start + NK.length + (rest.length + 1) := by
        simp only [List.length_append, List.length_map, List.length_cons, hlen_take]
      have hc2 : start + NK.length < (segments.segments.take start ++
          NK.map (mkInsertedSegment SegmentType.FIXED_BOUNDARY) ++
          (f :: rest)).length := by omega
      rw [if_pos hc2]
      have hgetD : (segments.segments.take start ++
          NK.map (mkInsertedSegment SegmentType.FIXED_BOUNDARY) ++
          (f :: rest)).getD (start + NK.length) default = f := by
        rw [← hlen2]
        exact getD_append_length _ f rest
      have htake2 : (segments.segments.take start ++
          NK.map (mkInsertedSegment SegmentType.FIXED_BOUNDARY) ++
          (f :: rest)).take (start + NK.length) =
          segments.segments.take start ++
          NK.map (mkInsertedSegment SegmentType.FIXED_BOUNDARY) := by
        rw [← hlen2]
        exact List.take_left _ _
      have hdrop2 : (segments.segments.take start ++
          NK.map (mkInsertedSegment SegmentType.FIXED_BOUNDARY) ++
          (f :: rest)).drop (start + NK.length + 1) = rest := by
        rw [← hlen2, List.drop_append]
        rfl
      rw [hgetD, htake2, hdrop2]
      rw [List.append_assoc, hdropstart]
      have htake3 : ((NK.map (mkInsertedSegment SegmentType.FIXED_BOUNDARY)) ++
          (mkInsertedSegment SegmentType.FREE (K.drop T ++ f.key) :: rest)).take
            (NK.length + 1) =
          (NK.map (mkInsertedSegment SegmentType.FIXED_BOUNDARY)) ++
          [mkInsertedSegment SegmentType.FREE (K.drop T ++ f.key)] := by
        rw [← hNSlen, List.take_append]
        rfl
      rw [htake3]
      rw [segKeys_append, segKeys_map_mk, hflat, segKeys_cons, segKeys_nil]
      have htake4 : (f :: rest).take 1 = [f] := rfl
      rw [htake4, segKeys_cons, segKeys_nil]
      dsimp only [mkInsertedSegment]
      rw [List.append_nil, List.append_nil, ← List.append_assoc,
        List.take_append_drop]
      rw [← hKsrc]
  · -- no remainder: the sizes consume the collected key exactly
    simp only [if_neg hTL]
    rw [Nat.add_zero, List.append_nil]
    rw [List.append_assoc, hdropstart]
    rw [← hNSlen, List.take_left]
    rw [segKeys_map_mk, hflat]
    have hKlen : T = K.length := by omega
    rw [hKlen, List.take_length]
    exact hKsrc

/-- Witness for C1: resizing `[abc][de]` with sizes `[2]` consumes `abc`
and merges the remainder `c` into the following segment `de`. -/
theorem resizeSegments_conservative_witness :
    ∃ result : Segments,
      ResizeSegmentsSpliced resizeDemoSegments RequestType.CONVERSION 0 [2] =
        some result ∧
      segKeys ((result.segments.drop 0).take
          (resizeReplacedCount resizeDemoSegments 0 [2])) =
        segKeys ((resizeDemoSegments.segments.drop 0).take
          (resizeConsumedCount resizeDemoSegments 0 ([2] : List Nat).sum)) ++
        resizeFollowKey resizeDemoSegments 0 [2] :=
  resizeSegments_conservative resizeDemoSegments 0 [2] 0 (by decide) (by decide)
    (by decide)

/-- Witness for C3 at concrete collaborators and a concrete buffer: the
history bound holds after `FinishConversion`. -/
theorem finishConversion_history_invariant_witness :
    (FinishConversion (fun _ _ => none) 7 (fun _ s => s) (fun _ s => s)
        predDemoRequest commitDemoSegments).history_segments_size ≤
      (FinishConversion (fun _ _ => none) 7 (fun _ s => s) (fun _ s => s)
        predDemoRequest commitDemoSegments).max_history_segments_size :=
  (finishConversion_history_invariant (fun _ _ => none) 7 (fun _ s => s)
    (fun _ s => s) predDemoRequest commitDemoSegments).1
